import Mathlib

/-!
Verification development for the NodequentSheets repository
(`src/Sheets.js`): a fluent query/update layer over a remote
spreadsheet-like store.  The class under study keeps, per session,

  * `header`        : canonicalized header tokens of the selected table,
  * `values[table]` : the array of row objects materialized at fetch time,
  * `results`       : the current result view (initially the *same array
                      object* as `values[table]`; `filterResults` replaces
                      it with a fresh array),

and mutating operations (`_deleteRow`, `_updateRow`, `orderBy`) act
through that array aliasing.  The embedding below mirrors the JavaScript
faithfully:

  * JS cell values are `JSVal` (strings, integer numbers as produced by
    the source's `primary_key` field, and `undefined`); numeric strings
    outside decimal integer literals are treated as non-numeric (`NaN`)
    by `strToNum`, which is exact for the integer-valued comparisons the
    source performs.
  * JS objects are insertion-ordered association lists (`Entry`);
    property assignment `obj[k] = v` keeps the position of an existing
    key (`objSet`), `{...a, ...b}` is `objMerge`, destructuring
    `{primary_key, ...rest}` is `objRemove`, `Object.entries` is the
    list itself and `Object.fromEntries` is `objFromList`.
  * The aliasing between `results` and `values[table]` is an explicit
    `aliased` flag on the state; operations that in JS mutate the shared
    array in place update both fields exactly when the flag is set.
-/

namespace NodequentSheets

/-- A JavaScript value as it occurs in the row records of the source:
cell contents are strings, the synthetic `primary_key` is a number, and
absent properties read as `undefined`. -/
inductive JSVal where
  | vstr (s : String)
  | vnum (n : Int)
  | vundef
deriving DecidableEq, Repr

open JSVal

/-- JS `ToString` on the values above (`String(v)`). -/
def jsToString : JSVal → String
  | vstr s => s
  | vnum n => toString n
  | vundef => "undefined"

/-- Value of an all-digit character list, read in base 10. -/
def digitsVal : List Char → Option Nat
  | [] => none
  | cs => if cs.all Char.isDigit then some (cs.foldl (fun a c => a * 10 + (c.toNat - 48)) 0) else none

/-- An ASCII whitespace character (the whitespace the data at hand can
contain; JS `\s` and `trim` also cover rarer Unicode spaces). -/
def wsChar (c : Char) : Bool :=
  c = ' ' || c = '\t' || c = '\n' || c = '\r'

/-- JS `String.prototype.trim`: drop leading and trailing whitespace. -/
def trimStr (s : String) : String :=
  String.mk (((s.data.dropWhile wsChar).reverse.dropWhile wsChar).reverse)

/-- JS `ToNumber` on a string, restricted to the values the source ever
compares: the empty / all-whitespace string converts to `0`, an optional
sign followed by decimal digits converts to the corresponding integer,
and anything else (floats, hex, garbage) is treated as `NaN` (`none`),
which is exact for comparisons against integer-valued `JSVal.vnum`. -/
def strToNum (s : String) : Option Int :=
  let t := trimStr s
  if t = "" then some 0
  else match t.data with
    | '+' :: rest => (digitsVal rest).map (fun n => (n : Int))
    | '-' :: rest => (digitsVal rest).map (fun n => -(n : Int))
    | cs => (digitsVal cs).map (fun n => (n : Int))

/-- JS `ToNumber` on a `JSVal` (`none` = `NaN`). -/
def toNumberJS : JSVal → Option Int
  | vstr s => strToNum s
  | vnum n => some n
  | vundef => none

/-- JS loose equality `==` on the values above: same-type comparison is
structural, string-vs-number converts the string with `ToNumber`, and
`undefined` is loosely equal only to itself (`null` does not occur). -/
def looseEq : JSVal → JSVal → Bool
  | vstr a, vstr b => a = b
  | vnum a, vnum b => a = b
  | vstr s, vnum n => strToNum s = some n
  | vnum n, vstr s => strToNum s = some n
  | vundef, vundef => true
  | vundef, _ => false
  | _, vundef => false

/-- Does the first character list occur as a leading segment of the second? -/
def leadsWith : List Char → List Char → Bool
  | [], _ => true
  | _ :: _, [] => false
  | a :: as, b :: bs => a = b && leadsWith as bs

/-- Does the first character list occur as a contiguous segment of the second? -/
def hasSeg (needle : List Char) : List Char → Bool
  | [] => needle.isEmpty
  | c :: rest => leadsWith needle (c :: rest) || hasSeg needle rest

/-- JS `String.prototype.includes`: substring containment (the source
calls it as `cellValue.includes(value)`; a non-string argument is
coerced with `ToString` at the call site). -/
def jsIncludes (hay needle : String) : Bool :=
  hasSeg needle.data hay.data

/-- One character of the source's first header-cleanup pass,
`key.replace(/[^a-zA-Z0-9]/g, " ")`: `Char.isAlphanum` is exactly the
ASCII class `[a-zA-Z0-9]` of the regex. -/
def sanitizeChar (c : Char) : Char :=
  if c.isAlphanum then c else ' '

mutual

/-- The source's second header-cleanup pass, `.replace(/\s+/g, "_")`,
on the output of the first pass (where every whitespace character has
already become a plain space): each maximal run of spaces becomes one
underscore. -/
def collapseSp : List Char → List Char
  | [] => []
  | c :: rest => if c = ' ' then '_' :: skipSp rest else c :: collapseSp rest

/-- Consume the remainder of a space run, then resume `collapseSp`. -/
def skipSp : List Char → List Char
  | [] => []
  | c :: rest => if c = ' ' then skipSp rest else c :: collapseSp rest

end

/-- Header canonicalization from `setValues`: replace every character
outside `[a-zA-Z0-9]` with a space, collapse whitespace runs to single
underscores, lower-case the result. -/
def canonicalize (s : String) : String :=
  String.mk ((collapseSp (s.data.map sanitizeChar)).map Char.toLower)

/-- Canonicalized header row (`this.header`). -/
def canonHeader (hdr : List String) : List String :=
  hdr.map canonicalize

/-- A JS object as an insertion-ordered association list; this is the
order `Object.entries` / `Object.values` observe for the string keys the
source uses. -/
abbrev Entry := List (String × JSVal)

/-- Keys of an object, in property order. -/
def objKeys (e : Entry) : List String :=
  e.map Prod.fst

/-- Property read `e[k]`: first binding for `k`, else `undefined`. -/
def objGetD (e : Entry) (k : String) : JSVal :=
  match e.find? (fun p => p.1 = k) with
  | some p => p.2
  | none => vundef

/-- Property assignment `e[k] = v`: an existing key keeps its position
and gets the new value, a new key is appended at the end (JS property
insertion order). -/
def objSet (e : Entry) (k : String) (v : JSVal) : Entry :=
  match e with
  | [] => [(k, v)]
  | (k2, v2) :: rest => if k2 = k then (k, v) :: rest else (k2, v2) :: objSet rest k v

/-- Object spread `{...a, ...b}`: assign `b`'s properties onto `a`.
The fold is over `b` in creation order rather than JS enumeration
order, which is observation-equivalent: per-key values are
order-independent (each key is assigned once), keys already in `a` keep
their position either way, new array-index-like keys are sorted
numerically by `enumOrder` at every observation site regardless of
where they were appended, and new non-index keys retain their relative
order from `b` under both folds (`enumOrder` only moves index keys). -/
def objMerge (a b : Entry) : Entry :=
  b.foldl (fun acc p => objSet acc p.1 p.2) a

/-- Rest destructuring `{k, ...rest} = e`: every property except `k`.
Creation order of `rest` in JS is `e`'s enumeration order minus `k`;
filtering the creation-order list instead is observation-equivalent for
the same reason as in `objMerge` (both lists agree per key, and every
consumer applies `enumOrder`). -/
def objRemove (e : Entry) (k : String) : Entry :=
  e.filter (fun p => ¬(p.1 = k))

/-- `Object.fromEntries`: assemble an object from a pair list by repeated
assignment. -/
def objFromList (l : List (String × JSVal)) : Entry :=
  l.foldl (fun acc p => objSet acc p.1 p.2) []

/-- The numeric value of a key that JS treats as an array index: a
canonical (no leading zero except `"0"` itself) decimal string whose
value is below `2^32 - 1`.  Such keys enumerate before all other string
keys, in ascending numeric order. -/
def jsIndexNum (s : String) : Option Nat :=
  match digitsVal s.data with
  | some n =>
    if (s = "0" ∨ ¬(s.data.head? = some '0')) ∧ n < 4294967295 then some n else none
  | none => none

/-- Is the key an array-index-like key (enumerated first by JS)? -/
def jsIndexKey (s : String) : Bool :=
  (jsIndexNum s).isSome

/-- Insert a property into a list of index-keyed properties, ascending
by numeric key value. -/
def idxInsert (p : String × JSVal) : Entry → Entry
  | [] => [p]
  | q :: r =>
    if (jsIndexNum q.1).getD 0 ≤ (jsIndexNum p.1).getD 0 then q :: idxInsert p r
    else p :: q :: r

/-- Sort index-keyed properties ascending by numeric key value. -/
def idxSort : Entry → Entry
  | [] => []
  | p :: ps => idxInsert p (idxSort ps)

/-- JS own-property enumeration order, as observed by `Object.entries`,
`Object.values`, `Object.keys`, spread and `for-in`: array-index-like
keys first in ascending numeric order, then the remaining string keys
in creation order. -/
def enumOrder (e : Entry) : Entry :=
  idxSort (e.filter (fun p => jsIndexKey p.1)) ++ e.filter (fun p => ¬(jsIndexKey p.1 = true))

/-- One cell of a materialized row, from `setValues`:
`row[i] ? row[i].trim() : ""` — a present cell is trimmed (the empty
string, though falsy, also yields `""`, which equals its trim), a
missing trailing cell defaults to the empty string. -/
def cellAt (row : List String) (i : Nat) : String :=
  match row.get? i with
  | some s => trimStr s
  | none => ""

/-- The header-driven part of one row record, from
`this.header.reduce((obj, key, i) => { obj[key] = row[i] ? row[i].trim() : ""; return obj }, {})`. -/
def buildFrom (toks : List String) (row : List String) (i : Nat) (acc : Entry) : Entry :=
  match toks with
  | [] => acc
  | k :: ks => buildFrom ks row (i + 1) (objSet acc k (vstr (cellAt row i)))

/-- One full row record, `{ ...entry, primary_key: index + 1 }` where
`index` is the 0-based position among the data rows and `n = index + 1`. -/
def buildEntry (toks : List String) (row : List String) (n : Nat) : Entry :=
  objSet (buildFrom toks row 0 []) "primary_key" (vnum (n : Int))

/-- The session state relevant to the claims: the canonical header, the
selected table name, the single-key `this.values` object, the current
result view, and whether `results` is still the very array object stored
in `values` (as set up by `setValues`; `filterResults` breaks the alias
by building a fresh array). -/
structure SheetsState where
  header : List String
  selectedTable : String
  values : Option (String × List Entry)
  results : List Entry
  aliased : Bool
deriving DecidableEq, Repr

/-- `this.values[this.selectedTable]` as read by `filterResults` and
`save`: defined exactly when the values object holds the selected key. -/
def rawLookup (st : SheetsState) : Option (List Entry) :=
  match st.values with
  | some (k, es) => if k = st.selectedTable then some es else none
  | none => none

/-- Materialization of a fetched grid (header row `hdr`, data rows
`rows`) for table `t`, from `setValues`: canonicalize the header, build
one record per data row with 1-based synthetic `primary_key`, store the
records under the table key and make `results` the same array. -/
def materialize (t : String) (hdr : List String) (rows : List (List String)) : SheetsState :=
  let toks := canonHeader hdr
  let entries := rows.enum.map (fun p => buildEntry toks p.2 (p.1 + 1))
  { header := toks
    selectedTable := t
    values := some (t, entries)
    results := entries
    aliased := true }

/-- A `where()` argument: column, operator, comparison value. -/
structure Query where
  column : String
  operator : String
  value : JSVal
deriving DecidableEq, Repr

/-- The operator list `where()` accepts. -/
def supportedOps : List String :=
  ["=", "!=", ">", "<", ">=", "<=", "like"]

/-- JS `<` on the values the source compares: two strings compare
lexicographically by code unit, otherwise both sides go through
`ToNumber` and any `NaN` makes the comparison false. -/
def jsLtB : JSVal → JSVal → Bool
  | vstr a, vstr b => a < b
  | x, y =>
    match toNumberJS x, toNumberJS y with
    | some a, some b => a < b
    | _, _ => false

/-- JS `>` (same scheme as `jsLtB`). -/
def jsGtB : JSVal → JSVal → Bool
  | vstr a, vstr b => b < a
  | x, y =>
    match toNumberJS x, toNumberJS y with
    | some a, some b => b < a
    | _, _ => false

/-- JS `>=`: false on `NaN`, otherwise the negation of `<`. -/
def jsGeB : JSVal → JSVal → Bool
  | vstr a, vstr b => ¬(a < b)
  | x, y =>
    match toNumberJS x, toNumberJS y with
    | some a, some b => b ≤ a
    | _, _ => false

/-- JS `<=`: false on `NaN`, otherwise the negation of `>`. -/
def jsLeB : JSVal → JSVal → Bool
  | vstr a, vstr b => ¬(b < a)
  | x, y =>
    match toNumberJS x, toNumberJS y with
    | some a, some b => a ≤ b
    | _, _ => false

/-- The row predicate of `filterResults`: switch on the operator, with
`=`/`!=` as loose equality, the four order operators as JS relational
comparison, and `like` requiring a string-typed cell that contains the
query value (coerced to string) as a substring. -/
def predOf (q : Query) (e : Entry) : Bool :=
  let cell := objGetD e q.column
  match q.operator with
  | "=" => looseEq cell q.value
  | "!=" => ¬looseEq cell q.value
  | ">" => jsGtB cell q.value
  | "<" => jsLtB cell q.value
  | ">=" => jsGeB cell q.value
  | "<=" => jsLeB cell q.value
  | "like" =>
    match cell with
    | vstr s => jsIncludes s (jsToString q.value)
    | _ => false
  | _ => false

/-- `filterResults`: rebuild `results` by filtering the *base* row set
`this.values[this.selectedTable]` (a fresh array, so the alias to the
stored array is broken); `none` models the TypeError raised when that
base set is absent. -/
def filterResults (q : Query) (st : SheetsState) : Option SheetsState :=
  match rawLookup st with
  | some es => some { st with results := es.filter (predOf q), aliased := false }
  | none => none

/-- Argument validation performed by `where()` before filtering: a
non-empty column name and a supported operator. -/
def validQ (q : Query) : Prop :=
  ¬(q.column = "") ∧ q.operator ∈ supportedOps

instance (q : Query) : Decidable (validQ q) := by
  unfold validQ
  infer_instance

/-- `where()`: validate the column and operator (`includes` is list
membership), set the query, filter. -/
def whereRun (q : Query) (st : SheetsState) : Except String SheetsState :=
  if q.column = "" then .error "Invalid column name provided."
  else if ¬(q.operator ∈ supportedOps) then .error "Unsupported operator"
  else
    match filterResults q st with
    | some st2 => .ok st2
    | none => .error "TypeError"

/-- `_deleteRow(row)`: find the first result whose `primary_key` is
strictly equal to the given one and splice it out of the `results`
array; when that array is still the one stored in `values`, the stored
base set loses the row too (same array object). -/
def deleteRowBy (pkv : JSVal) (st : SheetsState) : SheetsState :=
  match st.results.findIdx? (fun r => objGetD r "primary_key" = pkv) with
  | some i =>
    let res2 := st.results.eraseIdx i
    { st with
      results := res2
      values := if st.aliased then st.values.map (fun p => (p.1, res2)) else st.values }
  | none => st

/-- `_updateRow(row, updatedFields)`: find the matching result by
`primary_key` and replace the array slot with the merged object; under
the alias the stored base set sees the same replacement. -/
def updateRowBy (pkv : JSVal) (fields : Entry) (st : SheetsState) : SheetsState :=
  match st.results.findIdx? (fun r => objGetD r "primary_key" = pkv) with
  | some i =>
    let res2 := st.results.set i (objMerge (st.results.getD i []) fields)
    { st with
      results := res2
      values := if st.aliased then st.values.map (fun p => (p.1, res2)) else st.values }
  | none => st

/-- Case-insensitive string comparison modelling
`aValue.localeCompare(bValue, undefined, { sensitivity: "base" })` on
the ASCII data the source handles: compare the lower-cased strings. -/
def cmpCI (a b : String) : Ordering :=
  let la := String.mk (a.data.map Char.toLower)
  let lb := String.mk (b.data.map Char.toLower)
  if la < lb then .lt else if lb < la then .gt else .eq

/-- The `orderBy` comparator: two strings use the locale comparison
above, anything else falls back to JS `<` / `>` (returning `0` when
neither holds, e.g. on `NaN`). -/
def cmpJS (x y : JSVal) : Ordering :=
  match x, y with
  | vstr a, vstr b => cmpCI a b
  | _, _ => if jsLtB x y then .lt else if jsGtB x y then .gt else .eq

/-- Comparator on entries for a sort column. -/
def entCmp (c : String) (a b : Entry) : Ordering :=
  cmpJS (objGetD a c) (objGetD b c)

/-- Stable insertion into a sorted list: the new element stops in front
of the first element it does not strictly exceed, so an element earlier
in the original list ends up in front of all its ties. -/
def entInsert (c : String) (a : Entry) : List Entry → List Entry
  | [] => [a]
  | b :: r => if entCmp c a b = .gt then b :: entInsert c a r else a :: b :: r

/-- Stable ascending sort by the column comparator.  ECMAScript
specifies `Array.prototype.sort` to be stable; insertion sort realises
exactly that specification for the consistent comparators at hand. -/
def sortEntries (c : String) : List Entry → List Entry
  | [] => []
  | x :: xs => entInsert c x (sortEntries c xs)

/-- `orderBy({column, direction})` on the result view: sort ascending
in place, then reverse in place when the direction is `"desc"`; the
array object is unchanged, so under the alias the stored base set is
reordered identically. -/
def orderByRun (c : String) (descend : Bool) (st : SheetsState) : SheetsState :=
  let sorted := sortEntries c st.results
  let res2 := if descend then sorted.reverse else sorted
  { st with
    results := res2
    values := if st.aliased then st.values.map (fun p => (p.1, res2)) else st.values }

/-- One step of `save()`'s reconciliation loop: find the stored row with
the same `primary_key` as the result (strict equality; records lacking
the field compare by `undefined === undefined`), merge the result's
fields (minus `primary_key`) into it, and truncate the merged object to
the first `header.length` properties via `Object.entries`/`slice`/
`Object.fromEntries`; `Object.entries` observes JS enumeration order
(`enumOrder`), with array-index-like keys first. -/
def mergeStep (hlen : Nat) (es : List Entry) (r : Entry) : List Entry :=
  match es.findIdx? (fun v => objGetD v "primary_key" = objGetD r "primary_key") with
  | some i =>
    es.set i (objFromList ((enumOrder (objMerge (es.getD i []) (objRemove r "primary_key"))).take hlen))
  | none => es

/-- The full reconciliation loop of `save()` over the result view.
The JavaScript `forEach` iterates the live `results` array while the
loop body replaces slots of `values[table]`; when the two are the same
array each result replaces its own or an earlier-untouched slot (its
match is found by its distinct `primary_key`, which the replacement
strips), so every read still sees the original element and folding over
the captured list is exact. -/
def saveFold (hlen : Nat) (results es : List Entry) : List Entry :=
  results.foldl (mergeStep hlen) es

/-- The grid `updateSheets` writes: the canonical header row on top of
one row per stored record, each record reduced to `Object.values` of its
properties minus `primary_key`; `Object.values` observes JS enumeration
order (`enumOrder`), with array-index-like keys first. -/
def writeGrid (header : List String) (es : List Entry) : List (List JSVal) :=
  (header.map vstr) :: es.map (fun e => (enumOrder (objRemove e "primary_key")).map Prod.snd)

/-- `save()` (with the remote clear/batch-write assumed to succeed):
return early with no remote call when the result view is empty; fail
when no table is selected or the stored values lack the selected key
(the guard error is caught and re-thrown as the fixed message); else run
the reconciliation loop and hand the updated grid to `updateSheets`.
The second component of a successful run is the grid written remotely
(`none` = no remote call was made). -/
def save (st : SheetsState) : Except String (SheetsState × Option (List (List JSVal))) :=
  if st.results.isEmpty then .ok (st, none)
  else if st.selectedTable = "" then .error "Failed to save data."
  else
    match rawLookup st with
    | none => .error "Failed to save data."
    | some es =>
      let es2 := saveFold st.header.length st.results es
      .ok
        ({ st with
            values := some (st.selectedTable, es2)
            results := if st.aliased then es2 else st.results },
          some (writeGrid st.header es2))

/-- The grid a `save()` call writes remotely, if any. -/
def savedWrite (st : SheetsState) : Option (List (List JSVal)) :=
  match save st with
  | .ok p => p.2
  | .error _ => none

/-! Error-path models.  Each fallible method is embedded as a function
of the injected remote outcome (`Except String _` with the error string
carrying the store-reported detail), returning what the caller observes. -/

/-- `_initClient`: attempt authentication; on failure the `catch` block
only calls `console.error` and returns normally, leaving `this.client`
null — the caller observes a *successful* completion with no client
(`Except.ok none`), never an error. -/
def initClient (auth : Except String Unit) : Except String (Option Unit) :=
  match auth with
  | .ok _ => .ok (some ())
  | .error _ => .ok none

/-- `setTables`: a remote result of `some titles` succeeds; a missing
`sheets` payload or any remote failure is caught and re-thrown as the
fixed message, the original store-reported detail discarded. -/
def setTablesCall (remote : Except String (Option (List String))) : Except String (List String) :=
  match remote with
  | .ok (some ts) => .ok ts
  | .ok none => .error "Error fetching sheet titles from the spreadsheet."
  | .error _ => .error "Error fetching sheet titles from the spreadsheet."

/-- The message `setValues` throws for table `t` when the remote fetch
failed with detail `e` (the original message is interpolated). -/
def setValuesErrMsg (t e : String) : String :=
  "Failed to set values for table '" ++ t ++ "': " ++ e

/-- The message `table(t)` re-throws after catching an error with
message `m` (again interpolating the caught message). -/
def tableErrMsg (t m : String) : String :=
  "Error selecting table '" ++ t ++ "': " ++ m

/-- `table(t)` when `t` is valid and the value fetch fails with remote
detail `e`: `setValues` wraps `e`, `table` wraps that again, so the
caller receives both fixed prefixes with the original detail attached. -/
def tableCallErr (t e : String) : Except String SheetsState :=
  .error (tableErrMsg t (setValuesErrMsg t e))

/-- `insert`: any error during the remote append is caught and
re-thrown as the fixed message, the store-reported detail discarded. -/
def insertCall (remote : Except String Unit) : Except String Unit :=
  match remote with
  | .ok _ => .ok ()
  | .error _ => .error "Failed to insert/upsert row."

/-! Object-identity model for `get()` (claim C10).  JS rows are objects
on a heap; the `results` array holds references.  `get()` builds a fresh
spread copy of every row (`{...row, delete, update}`) and returns the
new references; writing a plain field on a returned copy mutates only
that fresh object.  The heap is a list of entries indexed by allocation
order; an object id is its index. -/

/-- A result view over a heap of row objects. -/
structure ViewState where
  heap : List Entry
  resultIds : List Nat
deriving Repr

/-- Read an object from the heap. -/
def heapGet (h : List Entry) (i : Nat) : Entry :=
  (h.get? i).getD []

/-- The row records the view currently denotes. -/
def viewEntries (s : ViewState) : List Entry :=
  s.resultIds.map (fun i => heapGet s.heap i)

/-- `get()`: allocate one fresh spread copy per result row and return
the new references (the attached `delete`/`update` closures are modelled
separately by `deleteRowBy`/`updateRowBy`/`updateRowCall`); the
`results` array itself is untouched. -/
def getCall (s : ViewState) : ViewState × List Nat :=
  ({ heap := s.heap ++ s.resultIds.map (fun i => heapGet s.heap i)
     resultIds := s.resultIds },
   (List.range s.resultIds.length).map (fun j => s.heap.length + j))

/-- Plain property assignment `obj[k] = v` on heap object `oid`. -/
def setField (h : List Entry) (oid : Nat) (k : String) (v : JSVal) : List Entry :=
  h.set oid (objSet (heapGet h oid) k v)

/-- The `update` closure `_updateRow(row, fields)` in the heap model:
find the view slot whose row matches by `primary_key`, allocate the
merged object `{...old, ...fields}`, and point the array slot at it. -/
def updateRowCall (s : ViewState) (pkv : JSVal) (fields : Entry) : ViewState :=
  match s.resultIds.findIdx? (fun i => objGetD (heapGet s.heap i) "primary_key" = pkv) with
  | some ix =>
    let old := heapGet s.heap (s.resultIds.getD ix 0)
    { heap := s.heap ++ [objMerge old fields]
      resultIds := s.resultIds.set ix s.heap.length }
  | none => s

/-- Two adjacent characters are not both underscores (the shape
invariant of canonicalized header tokens). -/
def neUU (a b : Char) : Prop := ¬(a = '_' ∧ b = '_')

/-- Did an embedded method complete without throwing? -/
def exceptOk {α : Type} : Except String α → Bool
  | .ok _ => true
  | .error _ => false

/-- Is the value string-typed (JS `typeof v === "string"`)? -/
def isStr : JSVal → Bool
  | vstr _ => true
  | _ => false

/-- The association list a row record's header-driven part amounts to
when the canonical tokens are distinct: token `i` bound to cell `i`
(used to state and prove the structure of `buildFrom`). -/
def rowShape (toks : List String) (row : List String) (i : Nat) : Entry :=
  match toks with
  | [] => []
  | k :: ks => (k, vstr (cellAt row i)) :: rowShape ks row (i + 1)

/-- The merged-and-truncated record `save()` leaves in the stored base
set for a result row `e` that matched itself (the generic shape of one
`mergeStep` outcome, including the enumeration-order slice). -/
def stripE (hlen : Nat) (e : Entry) : Entry :=
  objFromList ((enumOrder (objMerge e (objRemove e "primary_key"))).take hlen)

/-! ## Supporting lemmas -/

theorem toNat_ofNat_small {n : Nat} (h : n < 55296) : (Char.ofNat n).toNat = n := by
  rw [Char.ofNat, dif_pos (Or.inl h)]
  rfl

theorem isAlphanum_iff (c : Char) : c.isAlphanum = true ↔
    (65 ≤ c.toNat ∧ c.toNat ≤ 90) ∨ (97 ≤ c.toNat ∧ c.toNat ≤ 122) ∨ (48 ≤ c.toNat ∧ c.toNat ≤ 57) := by
  simp only [Char.isAlphanum, Char.isAlpha, Char.isUpper, Char.isLower, Char.isDigit,
    Bool.or_eq_true, Bool.and_eq_true, decide_eq_true_eq, UInt32.le_def, BitVec.le_def,
    show ∀ x : UInt32, x.toBitVec.toNat = x.toNat from fun _ => rfl,
    show ∀ c : Char, c.val.toNat = c.toNat from fun _ => rfl,
    show ((65:UInt32)).toNat = 65 from rfl,
    show ((90:UInt32)).toNat = 90 from rfl,
    show ((97:UInt32)).toNat = 97 from rfl,
    show ((122:UInt32)).toNat = 122 from rfl,
    show ((48:UInt32)).toNat = 48 from rfl,
    show ((57:UInt32)).toNat = 57 from rfl]
  show (_ ∨ _) ∨ _ ↔ _
  omega

theorem toNat_toLower (c : Char) :
    (c.toLower).toNat = if 65 ≤ c.toNat ∧ c.toNat ≤ 90 then c.toNat + 32 else c.toNat := by
  unfold Char.toLower
  by_cases h : c.toNat ≥ 65 ∧ c.toNat ≤ 90
  · rw [if_pos h, if_pos ⟨h.1, h.2⟩, toNat_ofNat_small (by omega)]
  · rw [if_neg h, if_neg (by exact fun hc => h hc)]

theorem char_eq_of_toNat (c d : Char) (h : c.toNat = d.toNat) : c = d :=
  Char.ext (UInt32.ext h)

theorem toLower_alnum (c : Char) (h : c.isAlphanum = true) : (c.toLower).isAlphanum = true := by
  rw [isAlphanum_iff] at h ⊢
  rw [toNat_toLower]
  split <;> omega

theorem toLower_toLower (c : Char) : c.toLower.toLower = c.toLower := by
  apply char_eq_of_toNat
  rw [toNat_toLower c.toLower, toNat_toLower c]
  split_ifs <;> omega

theorem toLower_eq_underscore (c : Char) (h : c.toLower = '_') : c = '_' := by
  apply char_eq_of_toNat
  have h2 := congrArg Char.toNat h
  rw [toNat_toLower] at h2
  rw [show '_'.toNat = 95 from rfl] at h2 ⊢
  revert h2
  split <;> (intro h2; omega)

theorem alnum_ne_underscore (c : Char) (h : c.isAlphanum = true) : c ≠ '_' := by
  intro he
  rw [he] at h
  exact absurd h (by decide)

theorem alnum_ne_space (c : Char) (h : c.isAlphanum = true) : c ≠ ' ' := by
  intro he
  rw [he] at h
  exact absurd h (by decide)

theorem sanitizeChar_cases (c : Char) :
    sanitizeChar c = ' ' ∨ (sanitizeChar c).isAlphanum = true := by
  unfold sanitizeChar
  by_cases h : c.isAlphanum = true
  · rw [if_pos h]; exact Or.inr h
  · rw [if_neg h]; exact Or.inl rfl

theorem sanitizeChar_alnum (c : Char) (h : c.isAlphanum = true) : sanitizeChar c = c := by
  unfold sanitizeChar
  rw [if_pos h]

theorem sanitizeChar_underscore : sanitizeChar '_' = ' ' := by decide

theorem collapseSp_cons (a : Char) (rest : List Char) :
    collapseSp (a :: rest) = if a = ' ' then '_' :: skipSp rest else a :: collapseSp rest := by
  rw [collapseSp]

theorem skipSp_cons (a : Char) (rest : List Char) :
    skipSp (a :: rest) = if a = ' ' then skipSp rest else a :: collapseSp rest := by
  rw [skipSp]

theorem collapse_good : ∀ l : List Char, (∀ c ∈ l, c = ' ' ∨ c.isAlphanum = true) →
    ((∀ c ∈ collapseSp l, c = '_' ∨ c.isAlphanum = true) ∧ List.Chain' neUU (collapseSp l))
  ∧ ((∀ c ∈ skipSp l, c = '_' ∨ c.isAlphanum = true) ∧ List.Chain' neUU (skipSp l)
      ∧ ∀ c, (skipSp l).head? = some c → c ≠ '_')
  | [], _ => by
    constructor
    · constructor
      · intro c hc; simp [collapseSp] at hc
      · simp [collapseSp]
    · refine ⟨?_, ?_, ?_⟩
      · intro c hc; simp [skipSp] at hc
      · simp [skipSp]
      · intro c hc; simp [skipSp] at hc
  | a :: rest, hl => by
    have ha := hl a (List.mem_cons_self a rest)
    have hrest : ∀ c ∈ rest, c = ' ' ∨ c.isAlphanum = true :=
      fun c hc => hl c (List.mem_cons_of_mem a hc)
    have ih := collapse_good rest hrest
    by_cases hsp : a = ' '
    · have hcol : collapseSp (a :: rest) = '_' :: skipSp rest := by
        rw [collapseSp_cons, if_pos hsp]
      have hskip : skipSp (a :: rest) = skipSp rest := by
        rw [skipSp_cons, if_pos hsp]
      constructor
      · constructor
        · intro c hc
          rw [hcol] at hc
          rcases List.mem_cons.mp hc with h | h
          · exact Or.inl h
          · exact ih.2.1 c h
        · rw [hcol, List.chain'_cons']
          refine ⟨?_, ih.2.2.1⟩
          intro b hb
          exact fun hpair => ih.2.2.2 b hb hpair.2
      · rw [hskip]
        exact ih.2
    · have halnum : a.isAlphanum = true := (ha).resolve_left hsp
      have hane : a ≠ '_' := alnum_ne_underscore a halnum
      have hcol : collapseSp (a :: rest) = a :: collapseSp rest := by
        rw [collapseSp_cons, if_neg hsp]
      have hskip : skipSp (a :: rest) = a :: collapseSp rest := by
        rw [skipSp_cons, if_neg hsp]
      have hchars : ∀ c ∈ a :: collapseSp rest, c = '_' ∨ c.isAlphanum = true := by
        intro c hc
        rcases List.mem_cons.mp hc with h | h
        · exact Or.inr (h ▸ halnum)
        · exact ih.1.1 c h
      have hchain : List.Chain' neUU (a :: collapseSp rest) := by
        rw [List.chain'_cons']
        exact ⟨fun b _ hpair => hane hpair.1, ih.1.2⟩
      constructor
      · rw [hcol]; exact ⟨hchars, hchain⟩
      · rw [hskip]
        refine ⟨hchars, hchain, ?_⟩
        intro c hc
        rw [List.head?_cons, Option.some_inj] at hc
        exact hc ▸ hane

theorem skipSp_eq_collapseSp (l : List Char) (h : ∀ c, l.head? = some c → c ≠ ' ') :
    skipSp l = collapseSp l := by
  cases l with
  | nil => rfl
  | cons a rest =>
    have ha : a ≠ ' ' := h a (by rw [List.head?_cons])
    rw [skipSp_cons, collapseSp_cons, if_neg ha, if_neg ha]

theorem collapse_roundtrip : ∀ l : List Char,
    (∀ c ∈ l, c = '_' ∨ c.isAlphanum = true) → List.Chain' neUU l →
    collapseSp (l.map sanitizeChar) = l
  | [], _, _ => rfl
  | a :: rest, hl, hch => by
    have ha := hl a (List.mem_cons_self a rest)
    have hrest : ∀ c ∈ rest, c = '_' ∨ c.isAlphanum = true :=
      fun c hc => hl c (List.mem_cons_of_mem a hc)
    have hchrest : List.Chain' neUU rest := (List.chain'_cons'.mp hch).2
    have ih := collapse_roundtrip rest hrest hchrest
    rcases ha with hu | halnum
    · subst hu
      rw [List.map_cons, sanitizeChar_underscore]
      show collapseSp (' ' :: rest.map sanitizeChar) = '_' :: rest
      rw [collapseSp_cons, if_pos rfl]
      congr 1
      rw [skipSp_eq_collapseSp, ih]
      intro c hc
      cases rest with
      | nil => simp at hc
      | cons d rest2 =>
        have hd := hrest d (List.mem_cons_self d rest2)
        have hdne : d ≠ '_' := by
          have := (List.chain'_cons'.mp hch).1 d (by simp)
          exact fun he => this ⟨rfl, he⟩
        have hdal : d.isAlphanum = true := hd.resolve_left hdne
        rw [List.map_cons, sanitizeChar_alnum d hdal, List.head?_cons, Option.some_inj] at hc
        subst hc
        exact alnum_ne_space d hdal
    · have hane : a ≠ ' ' := alnum_ne_space a halnum
      rw [List.map_cons, sanitizeChar_alnum a halnum, collapseSp_cons, if_neg hane, ih]

theorem chain_map_toLower (l : List Char) (h : List.Chain' neUU l) :
    List.Chain' neUU (l.map Char.toLower) := by
  rw [List.chain'_map]
  refine h.imp ?_
  intro a b hab hpair
  exact hab ⟨toLower_eq_underscore a hpair.1, toLower_eq_underscore b hpair.2⟩

/-- C8.  Header canonicalization is idempotent: for every raw header
string `H`, `canonicalize (canonicalize H) = canonicalize H`, where
`canonicalize` replaces every character outside `[A-Za-z0-9]` with a
space, collapses whitespace runs into single underscores, and
lower-cases the result (the exact cleanup chain of `setValues`). -/
theorem C8_canonicalize_idempotent (H : String) :
    canonicalize (canonicalize H) = canonicalize H := by
  unfold canonicalize
  have hchars0 : ∀ c ∈ H.data.map sanitizeChar, c = ' ' ∨ c.isAlphanum = true := by
    intro c hc
    rcases List.mem_map.mp hc with ⟨d, _, hd⟩
    exact hd ▸ sanitizeChar_cases d
  have hm := (collapse_good (H.data.map sanitizeChar) hchars0).1
  set m := collapseSp (H.data.map sanitizeChar) with hmdef
  have hchars : ∀ c ∈ m.map Char.toLower, c = '_' ∨ c.isAlphanum = true := by
    intro c hc
    rcases List.mem_map.mp hc with ⟨d, hd, hdl⟩
    rcases hm.1 d hd with h | h
    · exact Or.inl (by rw [← hdl, h]; decide)
    · exact Or.inr (hdl ▸ toLower_alnum d h)
  have hchain : List.Chain' neUU (m.map Char.toLower) := chain_map_toLower m hm.2
  show String.mk ((collapseSp (((String.mk (m.map Char.toLower)).data).map sanitizeChar)).map Char.toLower) = _
  rw [show (String.mk (m.map Char.toLower)).data = m.map Char.toLower from rfl]
  rw [collapse_roundtrip (m.map Char.toLower) hchars hchain]
  rw [List.map_map]
  congr 1
  exact List.map_congr_left (fun c _ => toLower_toLower c)

/-- C6 counterexample.  A failing authentication inside `_initClient` is
caught, logged, and swallowed: the caller observes a successful
completion with a null client, not a propagated error; and `setTables`
re-throws remote failures as a fixed message that does not contain the
store-reported detail. -/
theorem C6_counterexample :
    initClient (Except.error "boom") = Except.ok none
  ∧ setTablesCall (Except.error "boom") =
      Except.error "Error fetching sheet titles from the spreadsheet."
  ∧ jsIncludes "Error fetching sheet titles from the spreadsheet." "boom" = false := by
  refine ⟨rfl, rfl, by decide⟩

/-- C6 (amended).  Error propagation as the code implements it: the
value fetch in `table`/`setValues` re-throws with the original remote
detail interpolated; `setTables` and `insert` re-throw fixed messages
that drop the detail; `_initClient` catches authentication failures and
only logs them, returning success with no client. -/
theorem C6_error_paths (e t : String) :
    initClient (Except.error e) = Except.ok none
  ∧ setTablesCall (Except.error e) =
      Except.error "Error fetching sheet titles from the spreadsheet."
  ∧ insertCall (Except.error e) = Except.error "Failed to insert/upsert row."
  ∧ tableCallErr t e =
      Except.error ("Error selecting table '" ++ t ++ "': "
        ++ ("Failed to set values for table '" ++ t ++ "': " ++ e)) :=
  ⟨rfl, rfl, rfl, rfl⟩

/-- C7.  `save()` with an empty result view is a no-op: it succeeds and
performs no remote call; with a nonempty view it succeeds exactly when a
table is selected (nonempty `selectedTable` whose values are loaded),
the only failing case. -/
theorem C7_save_noop_or_guard (st : SheetsState) :
    (st.results = [] → save st = .ok (st, none))
  ∧ (st.results ≠ [] →
      (exceptOk (save st) = true ↔ (st.selectedTable ≠ "" ∧ (rawLookup st).isSome = true))) := by
  constructor
  · intro h
    unfold save
    rw [if_pos (by rw [h]; rfl)]
  · intro h
    unfold save
    rw [if_neg (by rwa [ne_eq, ← List.isEmpty_iff] at h)]
    by_cases hsel : st.selectedTable = ""
    · rw [if_pos hsel]
      simp [exceptOk, hsel]
    · rw [if_neg hsel]
      cases hval : rawLookup st with
      | none => simp [exceptOk, hsel, hval]
      | some es => simp [exceptOk, hsel, hval]

/-- C7 witness: a freshly materialized empty table no-ops on save; a
one-row table saves successfully, matching the guard condition. -/
theorem C7_witness :
    save (materialize "t" ["a"] []) = .ok (materialize "t" ["a"] [], none)
  ∧ (exceptOk (save (materialize "t" ["a"] [["x"]])) = true ↔
      ((materialize "t" ["a"] [["x"]]).selectedTable ≠ ""
        ∧ (rawLookup (materialize "t" ["a"] [["x"]])).isSome = true)) :=
  ⟨(C7_save_noop_or_guard (materialize "t" ["a"] [])).1 rfl,
   (C7_save_noop_or_guard (materialize "t" ["a"] [["x"]])).2 (by decide)⟩

theorem rawLookup_update (st : SheetsState) (res : List Entry) (al : Bool) :
    rawLookup { st with results := res, aliased := al } = rawLookup st := rfl

/-- C3.  `where()` always re-filters the full base row set
`this.values[this.selectedTable]`, never the previous view: running
`where q1` then `where q2` produces exactly the state of `where q2`
alone (the base set and selected table are untouched by filtering). -/
theorem C3_where_scans_base (st : SheetsState) (q1 q2 : Query) (es : List Entry)
    (h : rawLookup st = some es) (h1 : validQ q1) (h2 : validQ q2) :
    (whereRun q1 st).bind (whereRun q2) = whereRun q2 st := by
  obtain ⟨hcol1, hop1⟩ := h1
  obtain ⟨hcol2, hop2⟩ := h2
  unfold whereRun
  rw [if_neg hcol1, if_neg (not_not_intro hop1), if_neg hcol2, if_neg (not_not_intro hop2)]
  unfold filterResults
  rw [h]
  show (whereRun q2 _) = _
  unfold whereRun
  rw [if_neg hcol2, if_neg (not_not_intro hop2)]
  unfold filterResults
  rw [rawLookup_update, h]

/-- C3 witness: two successive `where` calls on a two-row table equal
the second call alone. -/
theorem C3_witness :
    (whereRun { column := "c", operator := "=", value := vstr "a" }
        (materialize "t" ["c"] [["a"],["b"]])).bind
      (whereRun { column := "c", operator := "=", value := vstr "b" })
      = whereRun { column := "c", operator := "=", value := vstr "b" }
          (materialize "t" ["c"] [["a"],["b"]]) :=
  C3_where_scans_base (materialize "t" ["c"] [["a"],["b"]]) _ _
    (materialize "t" ["c"] [["a"],["b"]]).results rfl (by decide) (by decide)

/-- C4 counterexample.  With the numeric query value `0` against a row
whose stored cell is the empty string, `=` *selects* the row (JS loose
equality converts `""` to the number `0`), although the string forms
`""` and `"0"` differ — so `=` is not string-form equality for every
query value. -/
theorem C4_counterexample :
    (whereRun { column := "c", operator := "=", value := vnum 0 }
        (materialize "t" ["c"] [[""]])).map (fun s => s.results.length) = Except.ok 1
  ∧ objGetD ((materialize "t" ["c"] [[""]]).results.getD 0 []) "c" = vstr ""
  ∧ jsToString (vstr "") ≠ jsToString (vnum 0) := by
  refine ⟨rfl, rfl, by decide⟩

/-- C4 (amended).  For a *string* query value and string-typed cells,
`=` selects exactly the rows whose cell equals the query string, and
`like` selects exactly the rows whose string-typed cell contains the
query as a substring. -/
theorem C4_filter_eq_like (st : SheetsState) (es : List Entry) (col v : String)
    (hcol : ¬(col = "")) (h : rawLookup st = some es)
    (hcells : ∀ e ∈ es, isStr (objGetD e col) = true) :
    (whereRun { column := col, operator := "=", value := vstr v } st).map (fun s => s.results)
        = Except.ok (es.filter (fun e => objGetD e col == vstr v))
  ∧ (whereRun { column := col, operator := "like", value := vstr v } st).map (fun s => s.results)
        = Except.ok (es.filter (fun e =>
            match objGetD e col with
            | vstr s => jsIncludes s v
            | _ => false)) := by
  constructor
  · unfold whereRun
    rw [if_neg hcol, if_neg (not_not_intro (by simp [supportedOps]))]
    unfold filterResults
    rw [h]
    show Except.ok _ = _
    congr 1
    apply List.filter_congr
    intro e he
    have hs := hcells e he
    cases hcell : objGetD e col with
    | vstr s =>
      show predOf _ e = _
      unfold predOf
      rw [hcell]
      by_cases hsv : s = v <;> simp [looseEq, hsv]
    | vnum n => rw [hcell] at hs; simp [isStr] at hs
    | vundef => rw [hcell] at hs; simp [isStr] at hs
  · unfold whereRun
    rw [if_neg hcol, if_neg (not_not_intro (by simp [supportedOps]))]
    unfold filterResults
    rw [h]
    rfl

/-- C4 witness: `=` and `like` with string query values on a concrete
two-row table select exactly the matching rows. -/
theorem C4_witness :
    (whereRun { column := "name", operator := "=", value := vstr "ann" }
        (materialize "t" ["Name"] [["ann"],["bob"]])).map (fun s => s.results)
        = Except.ok (((materialize "t" ["Name"] [["ann"],["bob"]]).results).filter
            (fun e => objGetD e "name" == vstr "ann"))
  ∧ (whereRun { column := "name", operator := "like", value := vstr "ann" }
        (materialize "t" ["Name"] [["ann"],["bob"]])).map (fun s => s.results)
        = Except.ok (((materialize "t" ["Name"] [["ann"],["bob"]]).results).filter
            (fun e =>
              match objGetD e "name" with
              | vstr s => jsIncludes s "ann"
              | _ => false)) :=
  C4_filter_eq_like (materialize "t" ["Name"] [["ann"],["bob"]])
    (materialize "t" ["Name"] [["ann"],["bob"]]).results "name" "ann"
    (by decide) rfl (by decide)

theorem cmpJS_self (w : JSVal) : cmpJS w w = .eq := by
  cases w with
  | vstr s =>
    show cmpCI s s = .eq
    unfold cmpCI
    simp
  | vnum n =>
    show (if jsLtB (vnum n) (vnum n) then Ordering.lt
          else if jsGtB (vnum n) (vnum n) then Ordering.gt else Ordering.eq) = .eq
    simp [jsLtB, jsGtB, toNumberJS]
  | vundef => rfl

theorem entCmp_eq_of_keys (c : String) (a b : Entry) (w : JSVal)
    (ha : objGetD a c = w) (hb : objGetD b c = w) : entCmp c a b = .eq := by
  unfold entCmp
  rw [ha, hb, cmpJS_self]

theorem mem_of_mem_entInsert (c : String) (x e : Entry) :
    ∀ l : List Entry, e ∈ entInsert c x l → e = x ∨ e ∈ l
  | [], h => by
    unfold entInsert at h
    rcases List.mem_singleton.mp h with h2
    exact Or.inl h2
  | b :: r, h => by
    unfold entInsert at h
    by_cases hg : entCmp c x b = .gt
    · rw [if_pos hg] at h
      rcases List.mem_cons.mp h with h2 | h2
      · exact Or.inr (h2 ▸ List.mem_cons_self b r)
      · rcases mem_of_mem_entInsert c x e r h2 with h3 | h3
        · exact Or.inl h3
        · exact Or.inr (List.mem_cons_of_mem _ h3)
    · rw [if_neg hg] at h
      rcases List.mem_cons.mp h with h2 | h2
      · exact Or.inl h2
      · exact Or.inr h2

theorem mem_of_mem_sortEntries (c : String) (e : Entry) :
    ∀ l : List Entry, e ∈ sortEntries c l → e ∈ l
  | [], h => by simp [sortEntries] at h
  | x :: xs, h => by
    unfold sortEntries at h
    rcases mem_of_mem_entInsert c x e (sortEntries c xs) h with h2 | h2
    · exact h2 ▸ List.mem_cons_self x xs
    · exact List.mem_cons_of_mem x (mem_of_mem_sortEntries c e xs h2)

theorem filter_entInsert_pos (c : String) (x : Entry) (p : Entry → Bool) (hpx : p x = true) :
    ∀ l : List Entry, (∀ e ∈ l, p e = true → entCmp c x e = .eq) →
    (entInsert c x l).filter p = x :: l.filter p
  | [], _ => by simp [entInsert, List.filter, hpx]
  | b :: r, hall => by
    unfold entInsert
    by_cases hg : entCmp c x b = .gt
    · rw [if_pos hg]
      have hpb : p b = false := by
        cases hpbv : p b with
        | true => exact absurd (hall b (List.mem_cons_self b r) hpbv) (by rw [hg]; simp)
        | false => rfl
      rw [List.filter_cons_of_neg (by simp [hpb]), List.filter_cons_of_neg (by simp [hpb])]
      exact filter_entInsert_pos c x p hpx r
        (fun e he hp => hall e (List.mem_cons_of_mem b he) hp)
    · rw [if_neg hg]
      rw [List.filter_cons_of_pos (by simp [hpx])]

theorem filter_entInsert_neg (c : String) (x : Entry) (p : Entry → Bool) (hpx : p x = false) :
    ∀ l : List Entry, (entInsert c x l).filter p = l.filter p
  | [] => by simp [entInsert, List.filter, hpx]
  | b :: r => by
    unfold entInsert
    by_cases hg : entCmp c x b = .gt
    · rw [if_pos hg]
      cases hpb : p b with
      | true =>
        rw [List.filter_cons_of_pos (by simp [hpb]), List.filter_cons_of_pos (by simp [hpb]),
          filter_entInsert_neg c x p hpx r]
      | false =>
        rw [List.filter_cons_of_neg (by simp [hpb]), List.filter_cons_of_neg (by simp [hpb]),
          filter_entInsert_neg c x p hpx r]
    · rw [if_neg hg]
      rw [List.filter_cons_of_neg (by simp [hpx])]

theorem filter_sortEntries (c : String) (p : Entry → Bool) :
    ∀ l : List Entry, (∀ a ∈ l, ∀ b ∈ l, p a = true → p b = true → entCmp c a b = .eq) →
    (sortEntries c l).filter p = l.filter p
  | [], _ => rfl
  | x :: xs, hkey => by
    unfold sortEntries
    have ihall : ∀ a ∈ xs, ∀ b ∈ xs, p a = true → p b = true → entCmp c a b = .eq :=
      fun a ha b hb => hkey a (List.mem_cons_of_mem x ha) b (List.mem_cons_of_mem x hb)
    cases hpx : p x with
    | true =>
      rw [filter_entInsert_pos c x p hpx (sortEntries c xs)
        (fun e he hp => hkey x (List.mem_cons_self x xs) e
          (List.mem_cons_of_mem x (mem_of_mem_sortEntries c e xs he)) hpx hp)]
      rw [filter_sortEntries c p xs ihall, List.filter_cons_of_pos (by simp [hpx])]
    | false =>
      rw [filter_entInsert_neg c x p hpx (sortEntries c xs),
        filter_sortEntries c p xs ihall, List.filter_cons_of_neg (by simp [hpx])]

/-- C9.  `orderBy` is a stable sort: under ascending sort, the rows
whose sort-column value equals any fixed value keep their original
relative order (their filtered subsequence is unchanged), and the
descending direction returns exactly the reverse of the ascending
result (the code sorts ascending and then reverses in place). -/
theorem C9_orderBy_stable_reverse (st : SheetsState) (c : String) (w : JSVal) :
    ((orderByRun c false st).results.filter (fun e => objGetD e c == w)
        = st.results.filter (fun e => objGetD e c == w))
  ∧ (orderByRun c true st).results = ((orderByRun c false st).results).reverse := by
  constructor
  · show (sortEntries c st.results).filter _ = _
    apply filter_sortEntries
    intro a ha b hb hpa hpb
    exact entCmp_eq_of_keys c a b w (by simpa using hpa) (by simpa using hpb)
  · rfl

/-- C10.  `get()` returns fresh spread copies of the view's rows:
the view itself is untouched by the call, writing a plain data field on
any returned copy leaves every row the view (and hence the base
snapshot, which holds the same row objects) points at unchanged, while
the attached `update` closure does replace the matched view slot with
the merged record. -/
theorem C10_get_fresh_copies (s : ViewState)
    (hwf : ∀ i ∈ s.resultIds, i < s.heap.length) :
    (getCall s).1.resultIds = s.resultIds
  ∧ (∀ i ∈ s.resultIds, (getCall s).1.heap.get? i = s.heap.get? i)
  ∧ (∀ j ∈ (getCall s).2, ∀ k v, ∀ i ∈ s.resultIds,
      (setField (getCall s).1.heap j k v).get? i = s.heap.get? i)
  ∧ (∀ pkv fields ix,
      s.resultIds.findIdx? (fun i => objGetD (heapGet s.heap i) "primary_key" = pkv) = some ix →
      viewEntries (updateRowCall s pkv fields) =
        (viewEntries s).set ix
          (objMerge (heapGet s.heap (s.resultIds.getD ix 0)) fields)) := by
  refine ⟨rfl, ?_, ?_, ?_⟩
  · intro i hi
    exact List.get?_append (hwf i hi)
  · intro j hj k v i hi
    have hjbig : s.heap.length ≤ j := by
      rcases List.mem_map.mp hj with ⟨j0, _, hj0⟩
      omega
    have hne : j ≠ i := by
      have := hwf i hi
      omega
    unfold setField
    rw [List.get?_eq_getElem?, List.getElem?_set_ne hne, ← List.get?_eq_getElem?]
    exact List.get?_append (hwf i hi)
  · intro pkv fields ix hfind
    unfold updateRowCall
    rw [hfind]
    show (s.resultIds.set ix s.heap.length).map (heapGet (s.heap ++ [_])) = _
    rw [List.map_set]
    have hnew : heapGet (s.heap ++ [objMerge (heapGet s.heap (s.resultIds.getD ix 0)) fields])
        s.heap.length = objMerge (heapGet s.heap (s.resultIds.getD ix 0)) fields := by
      unfold heapGet
      rw [List.get?_concat_length]
      rfl
    rw [hnew]
    congr 1
    apply List.map_congr_left
    intro i hi
    unfold heapGet
    rw [List.get?_append (hwf i hi)]

/-- C10 witness: on a one-row view, mutating the copy returned by
`get()` leaves the stored row unchanged, while the `update` closure
replaces it with the merged record. -/
theorem C10_witness :
    (setField
        (getCall ⟨[[("a", vstr "x"), ("primary_key", vnum 1)]], [0]⟩).1.heap
        1 "a" (vstr "y")).get? 0
      = ([[("a", vstr "x"), ("primary_key", vnum 1)]] : List Entry).get? 0
  ∧ viewEntries (updateRowCall ⟨[[("a", vstr "x"), ("primary_key", vnum 1)]], [0]⟩
        (vnum 1) [("a", vstr "z")])
      = (viewEntries ⟨[[("a", vstr "x"), ("primary_key", vnum 1)]], [0]⟩).set 0
          (objMerge (heapGet [[("a", vstr "x"), ("primary_key", vnum 1)]] 0) [("a", vstr "z")]) :=
  ⟨(C10_get_fresh_copies ⟨[[("a", vstr "x"), ("primary_key", vnum 1)]], [0]⟩
      (by decide)).2.2.1 1 (by decide) "a" (vstr "y") 0 (by decide),
   (C10_get_fresh_copies ⟨[[("a", vstr "x"), ("primary_key", vnum 1)]], [0]⟩
      (by decide)).2.2.2 (vnum 1) [("a", vstr "z")] 0 (by decide)⟩

theorem objSet_fresh (e : Entry) (k : String) (v : JSVal) (h : ¬ k ∈ objKeys e) :
    objSet e k v = e ++ [(k, v)] := by
  induction e with
  | nil => rfl
  | cons p rest ih =>
    obtain ⟨k2, v2⟩ := p
    have hk2 : ¬(k2 = k) := by
      intro he
      exact h (he ▸ List.mem_cons_self k2 _)
    show objSet ((k2, v2) :: rest) k v = _
    unfold objSet
    rw [if_neg hk2, ih (fun hm => h (List.mem_cons_of_mem _ hm))]
    rfl

theorem objGetD_objSet_self (e : Entry) (k : String) (v : JSVal) :
    objGetD (objSet e k v) k = v := by
  induction e with
  | nil => simp [objSet, objGetD, List.find?]
  | cons p rest ih =>
    obtain ⟨k2, v2⟩ := p
    unfold objSet
    by_cases hk : k2 = k
    · rw [if_pos hk]
      simp [objGetD, List.find?]
    · rw [if_neg hk]
      unfold objGetD at ih ⊢
      rw [List.find?_cons_of_neg _ (by simpa using hk)]
      exact ih

theorem objKeys_rowShape (row : List String) : ∀ (toks : List String) (i : Nat),
    objKeys (rowShape toks row i) = toks
  | [], _ => rfl
  | k :: ks, i => by
    show k :: objKeys (rowShape ks row (i+1)) = _
    rw [objKeys_rowShape row ks (i+1)]

theorem rowShape_length (row : List String) : ∀ (toks : List String) (i : Nat),
    (rowShape toks row i).length = toks.length
  | [], _ => rfl
  | k :: ks, i => by
    show (rowShape ks row (i+1)).length + 1 = _
    rw [rowShape_length row ks (i+1)]
    rfl

theorem buildFrom_shape (row : List String) : ∀ (toks : List String) (i : Nat) (acc : Entry),
    (∀ k ∈ toks, ¬ k ∈ objKeys acc) → toks.Nodup →
    buildFrom toks row i acc = acc ++ rowShape toks row i
  | [], i, acc, _, _ => by simp [buildFrom, rowShape]
  | k :: ks, i, acc, hfresh, hnd => by
    show buildFrom ks row (i+1) (objSet acc k (vstr (cellAt row i))) = _
    rw [objSet_fresh acc k _ (hfresh k (List.mem_cons_self k ks))]
    rw [buildFrom_shape row ks (i+1) (acc ++ [(k, vstr (cellAt row i))]) ?_ (List.Nodup.of_cons hnd)]
    · show _ = acc ++ ((k, vstr (cellAt row i)) :: rowShape ks row (i+1))
      rw [List.append_assoc]
      rfl
    · intro k2 hk2
      rw [show objKeys (acc ++ [(k, vstr (cellAt row i))]) = objKeys acc ++ [k] by
        unfold objKeys; rw [List.map_append]; rfl]
      intro hmem
      rcases List.mem_append.mp hmem with hm | hm
      · exact hfresh k2 (List.mem_cons_of_mem k hk2) hm
      · rcases List.mem_singleton.mp hm with rfl
        exact (List.nodup_cons.mp hnd).1 hk2

theorem buildEntry_shape (toks : List String) (row : List String) (n : Nat)
    (hnd : toks.Nodup) (hpk : ¬ "primary_key" ∈ toks) :
    buildEntry toks row n = rowShape toks row 0 ++ [("primary_key", vnum (n : Int))] := by
  unfold buildEntry
  rw [buildFrom_shape row toks 0 [] (by intro k _; simp [objKeys]) hnd]
  rw [List.nil_append]
  rw [objSet_fresh _ _ _ (by rw [objKeys_rowShape]; exact hpk)]

theorem objGetD_append_of_not_mem (e1 e2 : Entry) (k : String) (h : ¬ k ∈ objKeys e1) :
    objGetD (e1 ++ e2) k = objGetD e2 k := by
  induction e1 with
  | nil => rfl
  | cons p rest ih =>
    obtain ⟨k2, v2⟩ := p
    have hk2 : ¬(k2 = k) := fun he => h (he ▸ List.mem_cons_self k2 _)
    unfold objGetD
    rw [List.cons_append, List.find?_cons_of_neg _ (by simpa using hk2)]
    exact ih (fun hm => h (List.mem_cons_of_mem _ hm))

theorem objGetD_append_of_mem (e1 e2 : Entry) (k : String) (h : k ∈ objKeys e1) :
    objGetD (e1 ++ e2) k = objGetD e1 k := by
  induction e1 with
  | nil => simp [objKeys] at h
  | cons p rest ih =>
    obtain ⟨k2, v2⟩ := p
    by_cases hk2 : k2 = k
    · unfold objGetD
      rw [List.cons_append, List.find?_cons_of_pos _ (by simpa using hk2),
        List.find?_cons_of_pos _ (by simpa using hk2)]
    · unfold objGetD
      rw [List.cons_append, List.find?_cons_of_neg _ (by simpa using hk2),
        List.find?_cons_of_neg _ (by simpa using hk2)]
      have hmem : k ∈ objKeys rest := by
        rcases List.mem_cons.mp h with hm | hm
        · exact absurd hm.symm hk2
        · exact hm
      exact ih hmem

theorem objGetD_rowShape_not_mem (row : List String) (k : String) :
    ∀ (toks : List String) (i : Nat), ¬ k ∈ toks →
    objGetD (rowShape toks row i) k = vundef
  | [], _, _ => rfl
  | k2 :: ks, i, h => by
    have hk2 : ¬(k2 = k) := fun he => h (he ▸ List.mem_cons_self k2 ks)
    show objGetD ((k2, _) :: rowShape ks row (i+1)) k = vundef
    unfold objGetD
    rw [List.find?_cons_of_neg _ (by simpa using hk2)]
    exact objGetD_rowShape_not_mem row k ks (i+1) (fun hm => h (List.mem_cons_of_mem k2 hm))

theorem objGetD_rowShape_at (row : List String) (k : String) :
    ∀ (toks : List String) (i j : Nat), toks.Nodup → toks.get? j = some k →
    objGetD (rowShape toks row i) k = vstr (cellAt row (i + j))
  | [], _, j, _, hj => by simp at hj
  | k2 :: ks, i, 0, _, hj => by
    rw [List.get?_cons_zero, Option.some_inj] at hj
    subst hj
    show objGetD ((k2, vstr (cellAt row i)) :: _) k2 = _
    unfold objGetD
    rw [List.find?_cons_of_pos _ (by simp)]
    rfl
  | k2 :: ks, i, j+1, hnd, hj => by
    rw [List.get?_cons_succ] at hj
    have hkmem : k ∈ ks := List.get?_mem hj
    have hk2 : ¬(k2 = k) := fun he => (List.nodup_cons.mp hnd).1 (he ▸ hkmem)
    show objGetD ((k2, _) :: rowShape ks row (i+1)) k = _
    unfold objGetD
    rw [List.find?_cons_of_neg _ (by simpa using hk2)]
    have := objGetD_rowShape_at row k ks (i+1) j (List.Nodup.of_cons hnd) hj
    unfold objGetD at this
    rw [show i + (j + 1) = i + 1 + j by omega]
    exact this

theorem find?_eq_of_nodup (e : Entry) (p : String × JSVal)
    (hnd : (objKeys e).Nodup) (hp : p ∈ e) :
    e.find? (fun q => q.1 = p.1) = some p := by
  induction e with
  | nil => simp at hp
  | cons a rest ih =>
    rcases List.mem_cons.mp hp with rfl | hmem
    · rw [List.find?_cons_of_pos _ (by simp)]
    · have hne : ¬(a.1 = p.1) := by
        intro he
        have : p.1 ∈ objKeys rest := List.mem_map.mpr ⟨p, hmem, rfl⟩
        exact (List.nodup_cons.mp hnd).1 (he ▸ this)
      rw [List.find?_cons_of_neg _ (by simpa using hne)]
      exact ih (List.nodup_cons.mp hnd).2 hmem

theorem objSet_of_find (e : Entry) (k : String) (v : JSVal)
    (h : e.find? (fun q => q.1 = k) = some (k, v)) : objSet e k v = e := by
  induction e with
  | nil => simp [List.find?] at h
  | cons a rest ih =>
    obtain ⟨k2, v2⟩ := a
    by_cases hk : k2 = k
    · rw [List.find?_cons_of_pos _ (by simpa using hk), Option.some_inj] at h
      show objSet ((k2, v2) :: rest) k v = _
      unfold objSet
      rw [if_pos hk]
      rw [show ((k, v) : String × JSVal) = (k2, v2) from h.symm]
    · rw [List.find?_cons_of_neg _ (by simpa using hk)] at h
      show objSet ((k2, v2) :: rest) k v = _
      unfold objSet
      rw [if_neg hk, ih h]

theorem objMerge_sub_self (e : Entry) : ∀ l : List (String × JSVal),
    (∀ p ∈ l, e.find? (fun q => q.1 = p.1) = some p) → objMerge e l = e
  | [], _ => rfl
  | p :: l2, h => by
    show List.foldl (fun acc q => objSet acc q.1 q.2) (objSet e p.1 p.2) l2 = e
    rw [objSet_of_find e p.1 p.2 (h p (List.mem_cons_self p l2))]
    exact objMerge_sub_self e l2 (fun q hq => h q (List.mem_cons_of_mem p hq))

theorem objMerge_remove_self (e : Entry) (k0 : String) (hnd : (objKeys e).Nodup) :
    objMerge e (objRemove e k0) = e := by
  apply objMerge_sub_self
  intro p hp
  exact find?_eq_of_nodup e p hnd (List.mem_of_mem_filter hp)

theorem foldl_objSet_fresh : ∀ (l : List (String × JSVal)) (acc : Entry),
    (∀ p ∈ l, ¬ p.1 ∈ objKeys acc) → (l.map Prod.fst).Nodup →
    l.foldl (fun a p => objSet a p.1 p.2) acc = acc ++ l
  | [], acc, _, _ => by simp
  | p :: l2, acc, hfresh, hnd => by
    show List.foldl _ (objSet acc p.1 p.2) l2 = _
    rw [objSet_fresh acc p.1 p.2 (hfresh p (List.mem_cons_self p l2))]
    rw [foldl_objSet_fresh l2 (acc ++ [(p.1, p.2)]) ?_ (by
      rw [List.map_cons] at hnd
      exact (List.nodup_cons.mp hnd).2)]
    · rw [List.append_assoc]
      rfl
    · intro q hq
      rw [show objKeys (acc ++ [(p.1, p.2)]) = objKeys acc ++ [p.1] by
        unfold objKeys; rw [List.map_append]; rfl]
      intro hmem
      rcases List.mem_append.mp hmem with hm | hm
      · exact hfresh q (List.mem_cons_of_mem p hq) hm
      · rcases List.mem_singleton.mp hm with he
        rw [List.map_cons] at hnd
        exact (List.nodup_cons.mp hnd).1 (he ▸ List.mem_map.mpr ⟨q, hq, rfl⟩)

theorem objFromList_self (l : List (String × JSVal)) (hnd : (l.map Prod.fst).Nodup) :
    objFromList l = l := by
  unfold objFromList
  rw [foldl_objSet_fresh l [] (by intro p _; simp [objKeys]) hnd]
  rfl

theorem objRemove_rowShape (row : List String) (toks : List String) (i : Nat)
    (hpk : ¬ "primary_key" ∈ toks) :
    objRemove (rowShape toks row i) "primary_key" = rowShape toks row i := by
  unfold objRemove
  rw [List.filter_eq_self]
  intro p hp
  have : p.1 ∈ toks := by
    rw [← objKeys_rowShape row toks i]
    exact List.mem_map.mpr ⟨p, hp, rfl⟩
  simp only [decide_eq_true_eq]
  intro he
  exact hpk (he ▸ this)

theorem enumOrder_of_no_index (e : Entry) (h : ∀ p ∈ e, jsIndexKey p.1 = false) :
    enumOrder e = e := by
  unfold enumOrder
  rw [show e.filter (fun p => jsIndexKey p.1) = [] from List.filter_eq_nil.mpr (by
    intro p hp
    simp [h p hp])]
  rw [show List.filter (fun p => ¬(jsIndexKey p.1 = true)) e = e from List.filter_eq_self.mpr (by
    intro p hp
    simp [h p hp])]
  rfl

theorem enumOrder_rowShape (row : List String) (toks : List String) (i : Nat)
    (hidx : ∀ tok ∈ toks, jsIndexKey tok = false) :
    enumOrder (rowShape toks row i) = rowShape toks row i := by
  apply enumOrder_of_no_index
  intro p hp
  apply hidx
  rw [← objKeys_rowShape row toks i]
  exact List.mem_map.mpr ⟨p, hp, rfl⟩

theorem stripE_buildEntry (toks : List String) (row : List String) (n : Nat)
    (hnd : toks.Nodup) (hpk : ¬ "primary_key" ∈ toks)
    (hidx : ∀ tok ∈ toks, jsIndexKey tok = false) :
    stripE toks.length (buildEntry toks row n) = rowShape toks row 0 := by
  unfold stripE
  rw [buildEntry_shape toks row n hnd hpk]
  have hrem : objRemove (rowShape toks row 0 ++ [("primary_key", vnum (n : Int))]) "primary_key"
      = rowShape toks row 0 := by
    unfold objRemove
    rw [List.filter_append]
    rw [show List.filter (fun p => ¬(p.1 = "primary_key")) [("primary_key", vnum (n : Int))] = [] by
      simp]
    rw [List.append_nil]
    exact objRemove_rowShape row toks 0 hpk
  rw [hrem]
  have hkeys : (objKeys (rowShape toks row 0 ++ [("primary_key", vnum (n : Int))])).Nodup := by
    rw [show objKeys (rowShape toks row 0 ++ [("primary_key", vnum (n : Int))])
        = objKeys (rowShape toks row 0) ++ ["primary_key"] by
      unfold objKeys; rw [List.map_append]; rfl]
    rw [objKeys_rowShape]
    simp only [List.nodup_append, List.nodup_cons, List.not_mem_nil, not_false_eq_true,
      List.nodup_nil, and_true, true_and]
    constructor
    · exact hnd
    · intro a ha hb
      rcases List.mem_singleton.mp hb with rfl
      exact hpk ha
  rw [objMerge_sub_self _ _ (fun p hp => find?_eq_of_nodup _ p hkeys
    (List.mem_append_left _ hp))]
  rw [enumOrder_of_no_index _ (by
    intro p hp
    rcases List.mem_append.mp hp with h1 | h1
    · apply hidx
      rw [← objKeys_rowShape row toks 0]
      exact List.mem_map.mpr ⟨p, h1, rfl⟩
    · rcases List.mem_singleton.mp h1 with rfl
      show jsIndexKey "primary_key" = false
      decide)]
  rw [show toks.length = (rowShape toks row 0).length from (rowShape_length row toks 0).symm]
  rw [List.take_left]
  apply objFromList_self
  rw [show (rowShape toks row 0).map Prod.fst = objKeys (rowShape toks row 0) from rfl]
  rw [objKeys_rowShape]
  exact hnd

theorem rowShape_map_snd (row : List String) : ∀ (toks : List String) (i : Nat),
    (rowShape toks row i).map Prod.snd
      = (List.range toks.length).map (fun j => vstr (cellAt row (i + j)))
  | [], _ => rfl
  | k :: ks, i => by
    show vstr (cellAt row i) :: (rowShape ks row (i+1)).map Prod.snd = _
    rw [rowShape_map_snd row ks (i+1)]
    rw [show (k :: ks).length = ks.length + 1 from rfl]
    rw [List.range_succ_eq_map, List.map_cons, List.map_map]
    congr 1
    apply List.map_congr_left
    intro j _
    simp only [Function.comp_apply]
    have harith : i + 1 + j = i + (j + 1) := by omega
    rw [harith]

/-- C5.  Materializing header `["First Name","Last Name"]` with data row
`["Ann","Lee"]` yields canonical header `["first_name","last_name"]` and
exactly the record `{first_name: "Ann", last_name: "Lee", primary_key: 1}`;
in general (for distinct canonical tokens, none spelled `primary_key`)
record `j` carries synthetic identifier `j+1` (1-based position) and maps
canonical token `i` to data cell `i` trimmed of surrounding whitespace,
with missing trailing cells defaulting to the empty string
(`cellAt` returns `""` for an absent index, never `undefined`). -/
theorem C5_materialize_records :
    ((materialize "t" ["First Name","Last Name"] [["Ann","Lee"]]).header
        = ["first_name","last_name"]
      ∧ (materialize "t" ["First Name","Last Name"] [["Ann","Lee"]]).results
        = [[("first_name", vstr "Ann"), ("last_name", vstr "Lee"), ("primary_key", vnum 1)]])
  ∧ (∀ (t : String) (hdr : List String) (rows : List (List String)) (j : Nat) (r : List String),
      (canonHeader hdr).Nodup → ¬ "primary_key" ∈ canonHeader hdr →
      rows.get? j = some r →
      ∃ e, (materialize t hdr rows).results.get? j = some e
        ∧ objGetD e "primary_key" = vnum ((j + 1 : Nat) : Int)
        ∧ ∀ (i : Nat) (tok : String), (canonHeader hdr).get? i = some tok →
            objGetD e tok = vstr (cellAt r i)) := by
  constructor
  · exact ⟨by decide, by decide⟩
  · intro t hdr rows j r hnd hpk hj
    refine ⟨buildEntry (canonHeader hdr) r (j + 1), ?_, ?_, ?_⟩
    · show (rows.enum.map (fun p => buildEntry (canonHeader hdr) p.2 (p.1 + 1))).get? j = _
      rw [List.get?_eq_getElem?, List.getElem?_map, List.getElem?_enum,
        ← List.get?_eq_getElem?, hj]
      rfl
    · exact objGetD_objSet_self _ _ _
    · intro i tok hi
      rw [buildEntry_shape (canonHeader hdr) r (j + 1) hnd hpk]
      have htokmem : tok ∈ objKeys (rowShape (canonHeader hdr) r 0) := by
        rw [objKeys_rowShape]
        exact List.get?_mem hi
      rw [objGetD_append_of_mem _ _ _ htokmem]
      have := objGetD_rowShape_at r tok (canonHeader hdr) 0 i hnd hi
      rw [Nat.zero_add] at this
      exact this

/-- C5 witness: the general record shape applied to a concrete one-row,
one-column table. -/
theorem C5_witness :
    ∃ e, (materialize "t" ["A"] [["x"]]).results.get? 0 = some e
      ∧ objGetD e "primary_key" = vnum ((0 + 1 : Nat) : Int)
      ∧ ∀ (i : Nat) (tok : String), (canonHeader ["A"]).get? i = some tok →
          objGetD e tok = vstr (cellAt ["x"] i) :=
  C5_materialize_records.2 "t" ["A"] [["x"]] 0 ["x"] (by decide) (by decide) rfl

theorem findIdx?_mid (p : Entry → Bool) : ∀ (l1 : List Entry) (r : Entry) (rest : List Entry) (i : Nat),
    (∀ x ∈ l1, p x = false) → p r = true →
    (l1 ++ r :: rest).findIdx? p i = some (i + l1.length)
  | [], r, rest, i, _, hr => by
    show ((r :: rest).findIdx? p i) = _
    rw [List.findIdx?_cons, if_pos hr]
    rfl
  | a :: l1', r, rest, i, hl, hr => by
    show ((a :: (l1' ++ r :: rest)).findIdx? p i) = _
    rw [List.findIdx?_cons, if_neg (by simp [hl a (List.mem_cons_self a l1')])]
    rw [findIdx?_mid p l1' r rest (i+1) (fun x hx => hl x (List.mem_cons_of_mem a hx)) hr]
    congr 1
    simp
    omega

theorem saveFold_aux (hlen : Nat) : ∀ (todo done : List Entry),
    (∀ e ∈ done, objGetD e "primary_key" = vundef) →
    (∀ e ∈ todo, ∃ m : Int, objGetD e "primary_key" = vnum m) →
    (∀ e ∈ todo, objGetD (stripE hlen e) "primary_key" = vundef) →
    List.foldl (mergeStep hlen) (done ++ todo) todo = done ++ todo.map (stripE hlen)
  | [], done, _, _, _ => by simp
  | r :: rest, done, hdone, htodo, hstrip => by
    show List.foldl (mergeStep hlen) (mergeStep hlen (done ++ r :: rest) r) rest = _
    obtain ⟨m, hm⟩ := htodo r (List.mem_cons_self r rest)
    have hfind : (done ++ r :: rest).findIdx?
        (fun v => decide (objGetD v "primary_key" = objGetD r "primary_key")) = some done.length := by
      have h0 := findIdx?_mid (fun v => decide (objGetD v "primary_key" = objGetD r "primary_key"))
        done r rest 0 (by intro x hx; simp [hdone x hx, hm]) (by simp)
      rw [Nat.zero_add] at h0
      exact h0
    have hgetd : (done ++ r :: rest).getD done.length [] = r := by
      unfold List.getD
      rw [List.get?_eq_getElem?, List.getElem?_append_right (Nat.le_refl _), Nat.sub_self]
      simp
    have hstep : mergeStep hlen (done ++ r :: rest) r = done ++ stripE hlen r :: rest := by
      unfold mergeStep
      rw [hfind]
      show (done ++ r :: rest).set done.length
          (objFromList ((enumOrder (objMerge ((done ++ r :: rest).getD done.length [])
            (objRemove r "primary_key"))).take hlen))
        = _
      rw [hgetd, List.set_append_right _ _ (Nat.le_refl _), Nat.sub_self]
      rfl
    rw [hstep]
    rw [show done ++ stripE hlen r :: rest = (done ++ [stripE hlen r]) ++ rest by simp]
    rw [saveFold_aux hlen rest (done ++ [stripE hlen r])
      (by
        intro e he
        rcases List.mem_append.mp he with h1 | h1
        · exact hdone e h1
        · rcases List.mem_singleton.mp h1 with rfl
          exact hstrip r (List.mem_cons_self r rest))
      (fun e he => htodo e (List.mem_cons_of_mem r he))
      (fun e he => hstrip e (List.mem_cons_of_mem r he))]
    simp

theorem save_of_state (st : SheetsState) (es : List Entry)
    (hne : st.results ≠ []) (hsel : ¬(st.selectedTable = ""))
    (hlk : rawLookup st = some es) :
    save st = .ok
      ({ st with
          values := some (st.selectedTable, saveFold st.header.length st.results es)
          results := if st.aliased then saveFold st.header.length st.results es else st.results },
        some (writeGrid st.header (saveFold st.header.length st.results es))) := by
  unfold save
  rw [if_neg (by rwa [ne_eq, ← List.isEmpty_iff] at hne), if_neg hsel, hlk]

theorem savedWrite_of_state (st : SheetsState) (es : List Entry)
    (hne : st.results ≠ []) (hsel : ¬(st.selectedTable = ""))
    (hlk : rawLookup st = some es) :
    savedWrite st = some (writeGrid st.header (saveFold st.header.length st.results es)) := by
  unfold savedWrite
  rw [save_of_state st es hne hsel hlk]

theorem saveFold_entries (toks : List String) (hnd : toks.Nodup)
    (hpk : ¬ "primary_key" ∈ toks) (hidx : ∀ tok ∈ toks, jsIndexKey tok = false)
    (l : List (Nat × List String)) :
    saveFold toks.length (l.map (fun p => buildEntry toks p.2 (p.1 + 1)))
        (l.map (fun p => buildEntry toks p.2 (p.1 + 1)))
      = l.map (fun p => rowShape toks p.2 0) := by
  unfold saveFold
  have htodo : ∀ e ∈ l.map (fun p => buildEntry toks p.2 (p.1 + 1)),
      ∃ m : Int, objGetD e "primary_key" = vnum m := by
    intro e he
    rcases List.mem_map.mp he with ⟨p, _, rfl⟩
    exact ⟨((p.1 + 1 : Nat) : Int), objGetD_objSet_self _ _ _⟩
  have hstrip : ∀ e ∈ l.map (fun p => buildEntry toks p.2 (p.1 + 1)),
      objGetD (stripE toks.length e) "primary_key" = vundef := by
    intro e he
    rcases List.mem_map.mp he with ⟨p, _, rfl⟩
    rw [stripE_buildEntry toks p.2 (p.1 + 1) hnd hpk hidx]
    exact objGetD_rowShape_not_mem p.2 "primary_key" toks 0 hpk
  have h := saveFold_aux toks.length (l.map (fun p => buildEntry toks p.2 (p.1 + 1))) []
    (by intro e he; simp at he) htodo hstrip
  rw [List.nil_append] at h
  rw [h, List.nil_append, List.map_map]
  apply List.map_congr_left
  intro p _
  exact stripE_buildEntry toks p.2 (p.1 + 1) hnd hpk hidx

theorem writeGrid_shapes (toks : List String) (hpk : ¬ "primary_key" ∈ toks)
    (hidx : ∀ tok ∈ toks, jsIndexKey tok = false)
    (l : List (Nat × List String)) :
    writeGrid toks (l.map (fun p => rowShape toks p.2 0))
      = toks.map vstr ::
          l.map (fun p => (List.range toks.length).map (fun i => vstr (cellAt p.2 i))) := by
  unfold writeGrid
  rw [List.map_map]
  congr 1
  apply List.map_congr_left
  intro p _
  show (enumOrder (objRemove (rowShape toks p.2 0) "primary_key")).map Prod.snd = _
  rw [objRemove_rowShape p.2 toks 0 hpk, enumOrder_rowShape p.2 toks 0 hidx,
    rowShape_map_snd p.2 toks 0]
  apply List.map_congr_left
  intro j _
  rw [Nat.zero_add]

theorem eraseIdx_map (f : α → β) : ∀ (l : List α) (i : Nat),
    (l.map f).eraseIdx i = (l.eraseIdx i).map f
  | [], _ => rfl
  | _ :: _, 0 => rfl
  | a :: l, i+1 => by
    simp only [List.map_cons, List.eraseIdx_cons_succ]
    rw [eraseIdx_map f l i]

theorem objGetD_buildEntry_pk (toks row : List String) (n : Nat) :
    objGetD (buildEntry toks row n) "primary_key" = vnum ((n : Nat) : Int) :=
  objGetD_objSet_self _ _ _

theorem findIdx?_entries (toks : List String) : ∀ (rows : List (List String)) (n i k : Nat),
    n + 1 ≤ k → k ≤ n + rows.length →
    ((rows.enumFrom n).map (fun p => buildEntry toks p.2 (p.1 + 1))).findIdx?
      (fun e => decide (objGetD e "primary_key" = vnum ((k : Nat) : Int))) i
      = some (i + (k - n - 1))
  | [], n, i, k, h1, h2 => by
    simp at h2
    omega
  | r :: rows2, n, i, k, h1, h2 => by
    rw [List.enumFrom_cons, List.map_cons, List.findIdx?_cons]
    by_cases hk : n + 1 = k
    · rw [if_pos (by
        simp only [objGetD_buildEntry_pk, decide_eq_true_eq]
        exact congrArg (fun x : Nat => vnum ((x : Nat) : Int)) hk)]
      congr 1
      omega
    · rw [if_neg (by
        simp only [objGetD_buildEntry_pk, decide_eq_true_eq]
        intro he
        apply hk
        have h3 : ((n + 1 : Nat) : Int) = ((k : Nat) : Int) := by injection he
        exact_mod_cast h3)]
      rw [findIdx?_entries toks rows2 (n+1) (i+1) k (by omega) (by
        simp only [List.length_cons] at h2
        omega)]
      congr 1
      omega

/-- C2 counterexample.  Two violations of the round trip.  A data row
longer than the header loses its extra cells: materializing header
`["a"]` with row `["x","y"]` and saving with zero mutations writes back
`[["a"],["x"]]` — the cell `"y"` is gone.  And a header token that is an
array-index-like digit string breaks column order: with header
`["a","1"]` and row `["x","y"]`, JS enumerates the `"1"` property first
in `Object.entries`/`Object.values`, so the write is
`[["a","1"],["y","x"]]` — the data row reordered relative to the header
and to the fetched row. -/
theorem C2_counterexample :
    (savedWrite (materialize "t" ["a"] [["x","y"]]) = some [[vstr "a"], [vstr "x"]]
      ∧ [vstr "x"] ≠ ["x","y"].map (fun s => vstr (trimStr s)))
  ∧ (savedWrite (materialize "t" ["a","1"] [["x","y"]])
        = some [[vstr "a", vstr "1"], [vstr "y", vstr "x"]]
      ∧ [vstr "y", vstr "x"] ≠ ["x","y"].map (fun s => vstr (trimStr s))) := by
  refine ⟨⟨rfl, by decide⟩, rfl, by decide⟩

/-- C2 (amended).  For a table whose canonical header tokens are
distinct, none spelled `primary_key`, and none an array-index-like
digit string (JS enumerates such keys first, reordering columns), a
zero-mutation save writes back the canonical header row followed by
every fetched data row trimmed cell-wise and adjusted to header width
(missing trailing cells as empty strings, cells beyond the header
dropped), with column order preserved. -/
theorem C2_roundtrip (t : String) (hdr : List String) (rows : List (List String))
    (hnd : (canonHeader hdr).Nodup) (hpk : ¬ "primary_key" ∈ canonHeader hdr)
    (hidx : ∀ tok ∈ canonHeader hdr, jsIndexKey tok = false)
    (ht : ¬(t = "")) (hne : rows ≠ []) :
    savedWrite (materialize t hdr rows)
      = some ((canonHeader hdr).map vstr ::
          rows.map (fun r => (List.range hdr.length).map (fun i => vstr (cellAt r i)))) := by
  have hres : (materialize t hdr rows).results
      = (rows.enumFrom 0).map (fun p => buildEntry (canonHeader hdr) p.2 (p.1 + 1)) := rfl
  have hlk : rawLookup (materialize t hdr rows) = some ((materialize t hdr rows).results) := by
    show (if t = t then some ((materialize t hdr rows).results) else none)
      = some ((materialize t hdr rows).results)
    rw [if_pos rfl]
  have hlen : (materialize t hdr rows).results.length = rows.length := by
    rw [hres, List.length_map, List.enumFrom_length]
  have hne' : (materialize t hdr rows).results ≠ [] := by
    intro hnil
    apply hne
    rw [← List.length_eq_zero, ← hlen, hnil]
    rfl
  rw [savedWrite_of_state _ _ hne' (show ¬(t = "") from ht) hlk]
  show some (writeGrid (canonHeader hdr) (saveFold (canonHeader hdr).length
      ((materialize t hdr rows).results) ((materialize t hdr rows).results))) = _
  rw [hres, saveFold_entries (canonHeader hdr) hnd hpk hidx (rows.enumFrom 0),
    writeGrid_shapes (canonHeader hdr) hpk hidx (rows.enumFrom 0)]
  congr 1
  rw [show (canonHeader hdr).length = hdr.length from List.length_map _ _]
  rw [show (fun p : Nat × List String => (List.range hdr.length).map (fun i => vstr (cellAt p.2 i)))
      = (fun r : List String => (List.range hdr.length).map (fun i => vstr (cellAt r i))) ∘ Prod.snd
      from rfl]
  rw [← List.map_map, List.enumFrom_map_snd]

/-- C2 witness: the amended round trip on a concrete one-row,
two-column table with an untrimmed cell. -/
theorem C2_witness :
    savedWrite (materialize "t" ["A","B"] [[" x ","y"]])
      = some ((canonHeader ["A","B"]).map vstr ::
          [[" x ","y"]].map (fun r =>
            (List.range (["A","B"] : List String).length).map (fun i => vstr (cellAt r i)))) :=
  C2_roundtrip "t" ["A","B"] [[" x ","y"]] (by decide) (by decide) (by decide) (by decide)
    (by decide)

/-- C1 counterexample.  Deleting the *only* data row and saving performs
no remote write at all (`save` returns early on an empty view), instead
of writing the header-only grid the claim demands; and when a write does
happen, the header row written is the canonical form (`"a_b"`), not the
fetched header (`"A B"`) — the header is not written back unchanged. -/
theorem C1_counterexample :
    savedWrite (deleteRowBy (vnum 1) (materialize "t" ["A B"] [["x"]])) = none
  ∧ save (deleteRowBy (vnum 1) (materialize "t" ["A B"] [["x"]]))
      = .ok (deleteRowBy (vnum 1) (materialize "t" ["A B"] [["x"]]), none)
  ∧ savedWrite (deleteRowBy (vnum 1) (materialize "t" ["A B"] [["x"],["y"]]))
      = some [[vstr "a_b"], [vstr "y"]]
  ∧ ¬(vstr "a_b" = vstr "A B") := by
  refine ⟨rfl, rfl, rfl, by decide⟩

/-- C1 (amended).  Deleting the record with synthetic identifier `k`
from a freshly materialized table (distinct canonical tokens, none
spelled `primary_key`, none an array-index-like digit string that JS
would enumerate first) and saving writes the canonical header row plus
every remaining data row — row `k` removed, the others in order, each
trimmed cell-wise and adjusted to header width — provided at least one
row remains after the deletion; with no row remaining, `save` performs
no remote write (see the counterexample). -/
theorem C1_delete_save (t : String) (hdr : List String) (rows : List (List String)) (k : Nat)
    (hnd : (canonHeader hdr).Nodup) (hpk : ¬ "primary_key" ∈ canonHeader hdr)
    (hidx : ∀ tok ∈ canonHeader hdr, jsIndexKey tok = false)
    (ht : ¬(t = "")) (hk1 : 1 ≤ k) (hk2 : k ≤ rows.length) (hrows : 2 ≤ rows.length) :
    savedWrite (deleteRowBy (vnum ((k : Nat) : Int)) (materialize t hdr rows))
      = some ((canonHeader hdr).map vstr ::
          (rows.eraseIdx (k - 1)).map
            (fun r => (List.range hdr.length).map (fun i => vstr (cellAt r i)))) := by
  have hres : (materialize t hdr rows).results
      = (rows.enumFrom 0).map (fun p => buildEntry (canonHeader hdr) p.2 (p.1 + 1)) := rfl
  have hfind : (materialize t hdr rows).results.findIdx?
      (fun r => decide (objGetD r "primary_key" = vnum ((k : Nat) : Int))) = some (k - 1) := by
    rw [hres]
    have h := findIdx?_entries (canonHeader hdr) rows 0 0 k (by omega) (by omega)
    simpa using h
  have hdel : deleteRowBy (vnum ((k : Nat) : Int)) (materialize t hdr rows)
      = { materialize t hdr rows with
          results := ((materialize t hdr rows).results).eraseIdx (k - 1)
          values := some (t, ((materialize t hdr rows).results).eraseIdx (k - 1)) } := by
    unfold deleteRowBy
    rw [hfind]
    rfl
  rw [hdel]
  have hlenres : (materialize t hdr rows).results.length = rows.length := by
    rw [hres, List.length_map, List.enumFrom_length]
  have hne' : ((materialize t hdr rows).results).eraseIdx (k - 1) ≠ [] := by
    apply List.eraseIdx_ne_nil.mpr
    left
    omega
  have hlk : rawLookup { materialize t hdr rows with
      results := ((materialize t hdr rows).results).eraseIdx (k - 1)
      values := some (t, ((materialize t hdr rows).results).eraseIdx (k - 1)) }
      = some (((materialize t hdr rows).results).eraseIdx (k - 1)) := by
    show (if t = t then some (((materialize t hdr rows).results).eraseIdx (k - 1)) else none) = _
    rw [if_pos rfl]
  rw [savedWrite_of_state _ _ hne' (show ¬(t = "") from ht) hlk]
  show some (writeGrid (canonHeader hdr) (saveFold (canonHeader hdr).length
      (((materialize t hdr rows).results).eraseIdx (k - 1))
      (((materialize t hdr rows).results).eraseIdx (k - 1)))) = _
  rw [hres, eraseIdx_map,
    saveFold_entries (canonHeader hdr) hnd hpk hidx ((rows.enumFrom 0).eraseIdx (k - 1)),
    writeGrid_shapes (canonHeader hdr) hpk hidx ((rows.enumFrom 0).eraseIdx (k - 1))]
  congr 1
  rw [show (canonHeader hdr).length = hdr.length from List.length_map _ _]
  rw [show (fun p : Nat × List String => (List.range hdr.length).map (fun i => vstr (cellAt p.2 i)))
      = (fun r : List String => (List.range hdr.length).map (fun i => vstr (cellAt r i))) ∘ Prod.snd
      from rfl]
  rw [← List.map_map, ← eraseIdx_map, List.enumFrom_map_snd]

/-- C1 witness: delete the first of two rows, save, and observe the
canonical header plus only the second row written. -/
theorem C1_witness :
    savedWrite (deleteRowBy (vnum ((1 : Nat) : Int))
        (materialize "t" ["A","B"] [["x","y"],["z","w"]]))
      = some ((canonHeader ["A","B"]).map vstr ::
          ([["x","y"],["z","w"]].eraseIdx 0).map
            (fun r => (List.range (["A","B"] : List String).length).map
              (fun i => vstr (cellAt r i)))) :=
  C1_delete_save "t" ["A","B"] [["x","y"],["z","w"]] 1
    (by decide) (by decide) (by decide) (by decide) (by decide) (by decide) (by decide)

end NodequentSheets

